import Mathlib

/-!
# short_link: token resolution and creation

A shallow embedding of the request handlers of `main.go` (12-character
tokens, base64-stored targets, LRU cache in front of the table) and of
`cmd/main.go` (10-character tokens, plain targets), together with the
properties of the create / resolve paths.

Go strings are byte sequences, so a string is a list of bytes and `len` is
the list length.  The table is the list of its rows.  Every handler works on
a `World` (table, cache, and the journal of the accesses made so far) and
returns its reply together with the new `World`.  A redirect reply records the
call the handler makes; the `Location` header that fasthttp derives from it
is `locationSent`.
-/

namespace ShortLink

/-! ## Strings -/

/-- One byte of a Go string. -/
abbrev Byte := Fin 256

/-- A Go `string`: an immutable sequence of bytes. -/
abbrev GoString := List Byte

/-! ## `encoding/base64`, `StdEncoding` -/

/-- The padding character of `StdEncoding`, `=`. -/
def padChar : Byte := 61

/-- The alphabet of `StdEncoding`:
`ABCDEFGHIJKLMNOPQRSTUVWXYZabcdefghijklmnopqrstuvwxyz0123456789+/`. -/
def encodeStd : List Byte :=
  [65, 66, 67, 68, 69, 70, 71, 72, 73, 74, 75, 76, 77, 78, 79, 80, 81, 82, 83, 84, 85, 86, 87,
   88, 89, 90,
   97, 98, 99, 100, 101, 102, 103, 104, 105, 106, 107, 108, 109, 110, 111, 112, 113, 114, 115,
   116, 117, 118, 119, 120, 121, 122,
   48, 49, 50, 51, 52, 53, 54, 55, 56, 57,
   43, 47]

/-- Lookup `enc.encode[i]`. -/
def encode (i : Nat) : Byte := encodeStd.getD i 0

/-- Lookup `enc.decodeMap[in]`: the position of `in` in the alphabet, and `0xff`
for a byte outside of it. -/
def decodeMap (c : Byte) : Nat :=
  if encodeStd.indexOf c < 64 then encodeStd.indexOf c else 0xff

/-- The value `uint(src[si+0])<<16 | uint(src[si+1])<<8 | uint(src[si+2])` of a
group of three bytes; the three fields do not overlap. -/
def val24 (a b c : Nat) : Nat := a * 65536 + b * 256 + c

/-- The function `EncodeToString`: three bytes become four alphabet characters; a
remainder of one or two bytes is padded with `=`. -/
def EncodeToString : GoString → GoString
  | [] => []
  | [a] =>
    let v := val24 a.val 0 0
    [encode (v / 262144 % 64), encode (v / 4096 % 64), padChar, padChar]
  | [a, b] =>
    let v := val24 a.val b.val 0
    [encode (v / 262144 % 64), encode (v / 4096 % 64), encode (v / 64 % 64), padChar]
  | a :: b :: c :: rest =>
    let v := val24 a.val b.val c.val
    encode (v / 262144 % 64) :: encode (v / 4096 % 64) :: encode (v / 64 % 64)
      :: encode (v % 64) :: EncodeToString rest

/-- The error `CorruptInputError` of the decoder. -/
inductive CorruptInputError where
  | corrupt
  deriving DecidableEq, Repr

/-- Carriage return and line feed are skipped by the decoder. -/
def isNewline (c : Byte) : Bool := c == 10 || c == 13

/-- The value `dbuf[0]<<18 | dbuf[1]<<12 | dbuf[2]<<6 | dbuf[3]` of the sextets read
so far. -/
def val4 (d0 d1 d2 d3 : Nat) : Nat := d0 * 262144 + d1 * 4096 + d2 * 64 + d3

/-- The byte `byte(v >> s)`. -/
def byteOf (v s : Nat) : Byte := Fin.ofNat (v / 2 ^ s)

/-- The decoding loop of `Decode` / `decodeQuantum` in non-strict mode with padding.
`dbuf` holds the sextets of the current quantum read so far (`j = dbuf.length`). -/
def decodeLoop : GoString → List Nat → Except CorruptInputError GoString
  | [], [] => .ok []
  | [], _ :: _ => .error .corrupt
  | c :: rest, dbuf =>
    let out := decodeMap c
    if out ≠ 0xff then
      match dbuf with
      | [d0, d1, d2] =>
        let v := val4 d0 d1 d2 out
        match decodeLoop rest [] with
        | .ok tl => .ok (byteOf v 16 :: byteOf v 8 :: byteOf v 0 :: tl)
        | .error e => .error e
      | _ => decodeLoop rest (dbuf ++ [out])
    else if isNewline c then decodeLoop rest dbuf
    else if c ≠ padChar then .error .corrupt
    else
      match dbuf with
      | [d0, d1] =>
        match rest.dropWhile isNewline with
        | [] => .error .corrupt
        | p :: rest2 =>
          if p ≠ padChar then .error .corrupt
          else if rest2.dropWhile isNewline ≠ [] then .error .corrupt
          else .ok [byteOf (val4 d0 d1 0 0) 16]
      | [d0, d1, d2] =>
        if rest.dropWhile isNewline ≠ [] then .error .corrupt
        else
          let v := val4 d0 d1 d2 0
          .ok [byteOf v 16, byteOf v 8]
      | _ => .error .corrupt

/-- The function `DecodeString`; on an error the partial output is not used by any
caller and is dropped. -/
def DecodeString (s : GoString) : Except CorruptInputError GoString := decodeLoop s []

/-- Equality of `Except` values is decidable when it is so for both components. -/
instance instDecidableEqExcept {ε α : Type} [DecidableEq ε] [DecidableEq α] :
    DecidableEq (Except ε α)
  | .ok a, .ok b =>
    if h : a = b then isTrue (by rw [h]) else isFalse (by intro h2; cases h2; exact h rfl)
  | .error a, .error b =>
    if h : a = b then isTrue (by rw [h]) else isFalse (by intro h2; cases h2; exact h rfl)
  | .ok _, .error _ => isFalse (by intro h; cases h)
  | .error _, .ok _ => isFalse (by intro h; cases h)

/-! ## `github.com/darabuchi/utils` -/

/-- The two helpers of `github.com/darabuchi/utils` that derive a token. Their code is
not part of the repository, so the handlers take them as a parameter. -/
structure Utils where
  /-- The digest `utils.Sha512(s)`, as a string. -/
  Sha512 : GoString → GoString
  /-- The shortening `utils.ShortStr(s, max)`. -/
  ShortStr : GoString → Int → GoString

/-- A stand-in for the helpers, used to evaluate the handlers on concrete requests: the
digest is the input followed by 128 characters `0`, and shortening keeps the first
`max` bytes. It is not SHA-512; two inputs with the same first 12 bytes get the same
token. -/
def truncUtils : Utils where
  Sha512 := fun s => s ++ List.replicate 128 48
  ShortStr := fun s max => s.take max.toNat

/-! ## The table `short_link_short_map` -/

/-- A row of the table (`type ShortMap struct`); `Token` carries a unique index. -/
structure ShortMap where
  Token : GoString
  JumpUrl : GoString
  deriving DecidableEq, Repr

/-- The errors a statement can come back with. -/
inductive GormError where
  | ErrRecordNotFound
  | UniqueConstraintFailed
  deriving DecidableEq, Repr

/-- The error of a cache lookup that finds nothing. -/
inductive CacheError where
  | KeyNotFoundError
  deriving DecidableEq, Repr

/-- One access to the cache or to the table, as recorded in the journal. -/
inductive Access where
  | cacheGet (key : GoString)
  | select (token : GoString)
  | insert (row : ShortMap)
  | update (token jumpUrl : GoString)
  deriving DecidableEq, Repr

/-- Modelled from the spec: the cache built by `gcache.New(1024 * 8).LRU().Build()`
(the library is outside of the repository). A bounded mapping from token to target
whose entries are kept most recently used first; a hit refreshes recency. -/
structure LRU where
  size : Nat
  items : List (GoString × GoString)
  deriving DecidableEq, Repr

/-- The lookup `cache.Get(key)`: a hit returns the value and moves the entry to the
front, a miss returns `KeyNotFoundError` and changes nothing. -/
def LRU.Get (c : LRU) (key : GoString) : Except CacheError GoString × LRU :=
  match c.items.find? (fun it => it.1 = key) with
  | some it => (.ok it.2, { c with items := it :: c.items.filter (fun e => e.1 ≠ key) })
  | none => (.error .KeyNotFoundError, c)

/-- The state the handlers run on: the rows of the table in insertion order, the
cache, and the journal of every access made so far. -/
structure World where
  table : List ShortMap
  cache : LRU
  journal : List Access
  deriving DecidableEq, Repr

/-- The state at process start: `AutoMigrate` on a fresh database and the package
level `cache`. -/
def World.init : World := ⟨[], ⟨1024 * 8, []⟩, []⟩

/-- The call `cache.Get(token)` on the package level cache. -/
def World.cacheGet (w : World) (key : GoString) : Except CacheError GoString × World :=
  let r := w.cache.Get key
  (r.1, { w with cache := r.2, journal := w.journal ++ [.cacheGet key] })

/-- The query `db.Where("token = ?", token).First(&short)`. -/
def World.First (w : World) (token : GoString) : Except GormError ShortMap × World :=
  let w1 := { w with journal := w.journal ++ [.select token] }
  match w.table.find? (fun r => r.Token = token) with
  | some r => (.ok r, w1)
  | none => (.error .ErrRecordNotFound, w1)

/-- The statement `INSERT`; the unique index on `token` refuses a second row with the
same token. -/
def World.Create (w : World) (row : ShortMap) : Except GormError ShortMap × World :=
  let w1 := { w with journal := w.journal ++ [.insert row] }
  if w.table.any (fun r => r.Token = row.Token) then (.error .UniqueConstraintFailed, w1)
  else (.ok row, { w1 with table := w.table ++ [row] })

/-- The call `db.Where("token = ?", token).FirstOrCreate(&short)`: the row found under
`token` is loaded into `short`; when there is none, `short` is inserted. -/
def World.FirstOrCreate (w : World) (token : GoString) (short : ShortMap) :
    Except GormError ShortMap × World :=
  match w.First token with
  | (.ok found, w1) => (.ok found, w1)
  | (.error .ErrRecordNotFound, w1) => w1.Create short
  | (.error e, w1) => (.error e, w1)

/-- The call `db.Model(&short).Where("token = ?", token).Update("jump_url", jumpUrl)`;
the model has no primary key, so the statement is
`UPDATE ... SET jump_url = ? WHERE token = ?`. -/
def World.Update (w : World) (token jumpUrl : GoString) : Except GormError Unit × World :=
  (.ok (),
   { w with
     table := w.table.map (fun r => if r.Token = token then { r with JumpUrl := jumpUrl } else r),
     journal := w.journal ++ [.update token jumpUrl] })

/-! ## Replies -/

/-- The body `rsp` of `POST /short`. -/
structure ShortRsp where
  Code : Int
  Message : String
  LongUrl : GoString
  ShortUrl : GoString
  deriving DecidableEq, Repr

/-- An error returned by a handler to the framework (answered with status 500). -/
inductive HandlerError where
  | gorm (e : GormError)
  | base64 (e : CorruptInputError)
  deriving DecidableEq, Repr

/-- What a handler hands to the framework. `redirect` records the call of the redirect
with its two arguments, not the header that results from it (for `GET /:hash` of
`main.go` that header is `locationSent`); `render` records the view and the values of
its `fiber.Map`. -/
inductive Reply where
  | sendString (status : Nat) (body : String)
  | redirect (uri : GoString) (status : Nat)
  | json (status : Nat) (rsp : ShortRsp)
  | jsonp (status : Nat) (rsp : ShortRsp)
  | render (status : Nat) (view : String) (title : String) (shortUrl : GoString)
  | error (e : HandlerError)
  deriving DecidableEq, Repr

/-- The constant `Title`. -/
def Title : String := "Darabuchi-Short Link"

/-- The string `"/"`. -/
def slash : GoString := [47]

/-! ## The handlers of `main.go` -/

/-- The handler `GET /:hash`; `token` is `ctx.Params("hash")`. -/
def getHash (w : World) (token : GoString) : Reply × World :=
  if token.length ≠ 12 then
    (.sendString 400 "not found url", w)
  else
    match w.cacheGet token with
    | (.ok val, w1) => (.redirect val 307, w1)
    | (.error _, w1) =>
      match w1.First token with
      | (.error e, w2) =>
        if e = .ErrRecordNotFound then (.sendString 400 "not found url", w2)
        else (.error (.gorm e), w2)
      | (.ok short, w2) =>
        match DecodeString short.JumpUrl with
        | .error e => (.error (.base64 e), w2)
        | .ok u => (.redirect u 307, w2)

/-- The handler `POST /short`; `reqUrl` is `req.Url` once the form value or the body
has been read, `baseURL` is `ctx.BaseURL()`. -/
def postShort (utils : Utils) (baseURL : GoString) (w : World) (reqUrl : GoString) :
    Reply × World :=
  if reqUrl = [] then
    (.json 200 ⟨-1, "miss url", [], []⟩, w)
  else
    match DecodeString reqUrl with
    | .error _ => (.json 200 ⟨-1, "url not base64", [], []⟩, w)
    | .ok u =>
      let short : ShortMap := ⟨utils.ShortStr (utils.Sha512 reqUrl) 12, reqUrl⟩
      match w.FirstOrCreate short.Token short with
      | (.error e, w1) => (.error (.gorm e), w1)
      | (.ok short, w1) =>
        if short.JumpUrl ≠ u then
          match w1.Update short.Token reqUrl with
          | (.error e, w2) => (.error (.gorm e), w2)
          | (.ok _, w2) => (.json 200 ⟨1, "", reqUrl, baseURL ++ slash ++ short.Token⟩, w2)
        else
          (.json 200 ⟨1, "", reqUrl, baseURL ++ slash ++ short.Token⟩, w1)

/-- The handler `POST /sub/index`; `reqUrl` is `req.Url` as parsed from the body. -/
def postSubIndex (utils : Utils) (baseURL : GoString) (w : World) (reqUrl : GoString) :
    Reply × World :=
  if reqUrl = [] then
    (.sendString 200 "链接为空", w)
  else
    let reqUrl := EncodeToString reqUrl
    let short : ShortMap := ⟨utils.ShortStr (utils.Sha512 reqUrl) 12, reqUrl⟩
    match w.FirstOrCreate short.Token short with
    | (.error e, w1) => (.error (.gorm e), w1)
    | (.ok short, w1) => (.render 200 "short" Title (baseURL ++ slash ++ short.Token), w1)

/-! ## `github.com/valyala/fasthttp`: the redirect of `GET /:hash` -/

/-- The request URI `ctx.URI()` of the request being answered, in the parts that the
redirect reads. -/
structure RequestURI where
  /-- The text `scheme://host`. -/
  schemeHost : GoString
  /-- The path of the request, which starts with `/`. -/
  path : GoString
  deriving DecidableEq, Repr

/-- The part of `github.com/valyala/fasthttp` behind `ctx.Context().Redirect`. Its code
is not part of the repository, so it is a parameter. -/
structure Fasthttp where
  /-- The text that `Redirect(uri, statusCode)` writes into the `Location` header: the
  request URI updated with `uri` and serialised again. -/
  Redirect : RequestURI → GoString → GoString

/-- The `Location` header of the response to `GET /:hash` of `main.go`. The handler ends
in `ctx.Location(jumpUrl)`, which sets the header to `jumpUrl`, followed by
`ctx.Context().Redirect(jumpUrl, 307)`, which overwrites it with what fasthttp makes of
`jumpUrl` for the request at hand. The replies that are no redirect set no such header. -/
def locationSent (fh : Fasthttp) (req : RequestURI) : Reply → Option GoString
  | .redirect uri _ => some (fh.Redirect req uri)
  | _ => none

/-! ## The handlers of `cmd/main.go` -/

namespace Cmd

/-- The handler `GET /:hash` of the earlier variant: no length check and no cache. -/
def getHash (w : World) (token : GoString) : Reply × World :=
  match w.First token with
  | (.error e, w1) =>
    if e = .ErrRecordNotFound then (.sendString 400 "not found url", w1)
    else (.error (.gorm e), w1)
  | (.ok short, w1) => (.redirect short.JumpUrl 301, w1)

/-- The handler `POST /short` of the earlier variant: the token has 10 characters and
is derived from the decoded target, which is what the row stores. -/
def postShort (utils : Utils) (baseURL : GoString) (w : World) (reqUrl : GoString) :
    Reply × World :=
  if reqUrl = [] then
    (.jsonp 200 ⟨-1, "miss url", [], []⟩, w)
  else
    match DecodeString reqUrl with
    | .error _ => (.jsonp 200 ⟨-1, "url not base64", [], []⟩, w)
    | .ok u =>
      let short : ShortMap := ⟨utils.ShortStr (utils.Sha512 u) 10, u⟩
      match w.FirstOrCreate short.Token short with
      | (.error e, w1) => (.error (.gorm e), w1)
      | (.ok short, w1) => (.jsonp 200 ⟨0, "", [], baseURL ++ slash ++ short.Token⟩, w1)

end Cmd

/-! ## Sample data -/

/-- The target `https://example.com/a`. -/
def urlA : GoString :=
  [104, 116, 116, 112, 115, 58, 47, 47, 101, 120, 97, 109, 112, 108, 101, 46, 99, 111, 109, 47, 97]

/-- The target `https://example.com/b`. -/
def urlB : GoString :=
  [104, 116, 116, 112, 115, 58, 47, 47, 101, 120, 97, 109, 112, 108, 101, 46, 99, 111, 109, 47, 98]

/-- The token `aHR0cHM6Ly9l` that `truncUtils` derives from the base64 form of `urlA`
and of `urlB` alike. -/
def tokenAB : GoString := [97, 72, 82, 48, 99, 72, 77, 54, 76, 121, 57, 108]

/-- The base URL `http://s.lk` of the sample requests. -/
def sampleBase : GoString := [104, 116, 116, 112, 58, 47, 47, 115, 46, 108, 107]

/-- The token `unknown1234x`, which no sample row carries. -/
def tokenUnknown : GoString := [117, 110, 107, 110, 111, 119, 110, 49, 50, 51, 52, 120]

/-- A state whose table holds the one row for `urlA`, with a cold cache. -/
def worldA : World := ⟨[⟨tokenAB, EncodeToString urlA⟩], ⟨1024 * 8, []⟩, []⟩

/-- The target `example.com/a`, a reference without a scheme. -/
def urlRel : GoString := [101, 120, 97, 109, 112, 108, 101, 46, 99, 111, 109, 47, 97]

/-- The token `ZXhhbXBsZS5j` that `truncUtils` derives from the base64 form of `urlRel`. -/
def tokenRel : GoString := [90, 88, 104, 104, 98, 88, 66, 115, 90, 83, 53, 106]

/-- The text `http://s.lk/example.com/a`. -/
def urlRelResolved : GoString :=
  [104, 116, 116, 112, 58, 47, 47, 115, 46, 108, 107, 47, 101, 120, 97, 109, 112, 108, 101, 46, 99, 111, 109, 47, 97]

/-- Whether a string contains `//`. -/
def hasSlashSlash : GoString → Bool
  | [] => false
  | c :: rest => (c == 47 && rest.head? == some 47) || hasSlashSlash rest

/-- The part of a path up to and including its last `/`. -/
def dirOf (path : GoString) : GoString := (path.reverse.dropWhile (fun c => c != 47)).reverse

/-- A stand-in for fasthttp, used to evaluate the redirect on concrete requests. It
follows the order in which `URI.Update` tells references apart: a reference that
contains `//` is absolute and replaces the request URI, a reference that starts with `/`
replaces the path, and any other reference is relative and replaces what follows the last
`/` of the request path. It leaves out the references that are empty or start with `?` or
`#`, and the normalisation of path and escaping that parsing and serialising add. -/
def plainFasthttp : Fasthttp where
  Redirect := fun req uri =>
    if hasSlashSlash uri then uri
    else if uri.head? = some 47 then req.schemeHost ++ uri
    else req.schemeHost ++ dirOf req.path ++ uri

/-- The token `utils.ShortStr(utils.Sha512(x), 12)` that both create paths of `main.go`
derive from the stored form `x` of a target. -/
abbrev token12 (utils : Utils) (x : GoString) : GoString := utils.ShortStr (utils.Sha512 x) 12

/-! ## Facts about base64 -/

theorem decodeMap_encode_fin : ∀ i : Fin 64, decodeMap (encode i.val) = i.val := by decide

theorem decodeMap_encode (i : Nat) (h : i < 64) : decodeMap (encode i) = i :=
  decodeMap_encode_fin ⟨i, h⟩

theorem decodeMap_padChar : decodeMap padChar = 0xff := by decide

theorem isNewline_padChar : isNewline padChar = false := by decide

theorem byteOf_eq (v s : Nat) (a : Byte) (h : v / 2 ^ s % 256 = a.val) : byteOf v s = a := by
  apply Fin.ext
  simpa [byteOf, Fin.ofNat] using h

theorem decodeLoop_quad (i0 i1 i2 i3 : Nat) (h0 : i0 < 64) (h1 : i1 < 64) (h2 : i2 < 64)
    (h3 : i3 < 64) (rest : GoString) :
    decodeLoop (encode i0 :: encode i1 :: encode i2 :: encode i3 :: rest) [] =
      match decodeLoop rest [] with
      | .ok tl => .ok (byteOf (val4 i0 i1 i2 i3) 16 :: byteOf (val4 i0 i1 i2 i3) 8
          :: byteOf (val4 i0 i1 i2 i3) 0 :: tl)
      | .error e => .error e := by
  have e0 : ¬ i0 = 255 := by omega
  have e1 : ¬ i1 = 255 := by omega
  have e2 : ¬ i2 = 255 := by omega
  have e3 : ¬ i3 = 255 := by omega
  simp only [decodeLoop, e0, e1, e2, e3, ne_eq, not_false_eq_true, if_true, List.nil_append,
    List.cons_append, decodeMap_encode i0 h0, decodeMap_encode i1 h1, decodeMap_encode i2 h2,
    decodeMap_encode i3 h3]

theorem decodeLoop_pad2 (i0 i1 : Nat) (h0 : i0 < 64) (h1 : i1 < 64) :
    decodeLoop [encode i0, encode i1, padChar, padChar] [] =
      .ok [byteOf (val4 i0 i1 0 0) 16] := by
  have e0 : ¬ i0 = 255 := by omega
  have e1 : ¬ i1 = 255 := by omega
  simp [decodeLoop, e0, e1, decodeMap_encode i0 h0, decodeMap_encode i1 h1, decodeMap_padChar,
    isNewline_padChar]

theorem decodeLoop_pad1 (i0 i1 i2 : Nat) (h0 : i0 < 64) (h1 : i1 < 64) (h2 : i2 < 64) :
    decodeLoop [encode i0, encode i1, encode i2, padChar] [] =
      .ok [byteOf (val4 i0 i1 i2 0) 16, byteOf (val4 i0 i1 i2 0) 8] := by
  have e0 : ¬ i0 = 255 := by omega
  have e1 : ¬ i1 = 255 := by omega
  have e2 : ¬ i2 = 255 := by omega
  simp [decodeLoop, e0, e1, e2, decodeMap_encode i0 h0, decodeMap_encode i1 h1,
    decodeMap_encode i2 h2, decodeMap_padChar, isNewline_padChar]

/-- Decoding undoes encoding. -/
theorem DecodeString_EncodeToString (s : GoString) : DecodeString (EncodeToString s) = .ok s := by
  unfold DecodeString
  induction s using EncodeToString.induct with
  | case1 => rfl
  | case2 a =>
    have ha := a.isLt
    simp only [EncodeToString]
    rw [decodeLoop_pad2 _ _ (Nat.mod_lt _ (by omega)) (Nat.mod_lt _ (by omega))]
    congr 2
    apply byteOf_eq
    simp only [val4, val24]
    omega
  | case3 a b =>
    have ha := a.isLt
    have hb := b.isLt
    simp only [EncodeToString]
    rw [decodeLoop_pad1 _ _ _ (Nat.mod_lt _ (by omega)) (Nat.mod_lt _ (by omega))
      (Nat.mod_lt _ (by omega))]
    congr 2
    · apply byteOf_eq
      simp only [val4, val24]
      omega
    · congr 1
      apply byteOf_eq
      simp only [val4, val24]
      omega
  | case4 a b c rest ih =>
    have ha := a.isLt
    have hb := b.isLt
    have hc := c.isLt
    simp only [EncodeToString]
    rw [decodeLoop_quad _ _ _ _ (Nat.mod_lt _ (by omega)) (Nat.mod_lt _ (by omega))
      (Nat.mod_lt _ (by omega)) (Nat.mod_lt _ (by omega)), ih]
    simp only
    congr 2
    · apply byteOf_eq
      simp only [val4, val24]
      omega
    · congr 1
      · apply byteOf_eq
        simp only [val4, val24]
        omega
      · congr 1
        apply byteOf_eq
        simp only [val4, val24]
        omega

/-! ## Facts about the table and the cache -/

theorem find_token_none (table : List ShortMap) (token : GoString)
    (h : ∀ r ∈ table, r.Token ≠ token) :
    table.find? (fun r => decide (r.Token = token)) = none := by
  rw [List.find?_eq_none]
  intro r hr
  simpa using h r hr

theorem any_token_false (table : List ShortMap) (token : GoString)
    (h : ∀ r ∈ table, r.Token ≠ token) :
    table.any (fun r => decide (r.Token = token)) = false := by
  rw [List.any_eq_false]
  intro r hr
  simpa using h r hr

theorem cache_miss (c : LRU) (key : GoString) (h : ∀ e ∈ c.items, e.1 ≠ key) :
    c.Get key = (.error .KeyNotFoundError, c) := by
  have hf : c.items.find? (fun it => decide (it.1 = key)) = none := by
    rw [List.find?_eq_none]
    intro e he
    simpa using h e he
  simp [LRU.Get, hf]

theorem getHash_bad_length (w : World) (token : GoString) (h : token.length ≠ 12) :
    getHash w token = (.sendString 400 "not found url", w) := by
  simp [getHash, h]

/-! ## Resolve: rejections -/

/-- C3. A token whose length is not 12 is answered with status 400 and the state is
returned as it was received, journal included: no cache lookup and no statement on the
table has been made. -/
theorem getHash_malformed_token (w : World) (token : GoString) (h : token.length ≠ 12) :
    getHash w token = (.sendString 400 "not found url", w) := by
  simp [getHash, h]

theorem getHash_malformed_token_witness :
    ([] : GoString).length ≠ 12 ∧
      getHash World.init [] = (.sendString 400 "not found url", World.init) :=
  ⟨by decide, getHash_malformed_token World.init [] (by decide)⟩

/-- C6. A token of 12 characters with no cache entry and no row is answered with status
400 and no redirect; table and cache are unchanged and the journal gains one cache lookup
and one select. The handler of the earlier variant answers a token without a row the
same way, after one select. -/
theorem getHash_not_found (w : World) (token cmdToken : GoString) (hlen : token.length = 12)
    (hcache : ∀ e ∈ w.cache.items, e.1 ≠ token) (hrow : ∀ r ∈ w.table, r.Token ≠ token)
    (hcmd : ∀ r ∈ w.table, r.Token ≠ cmdToken) :
    getHash w token =
        (.sendString 400 "not found url",
         { w with journal := w.journal ++ [.cacheGet token, .select token] }) ∧
      Cmd.getHash w cmdToken =
        (.sendString 400 "not found url",
         { w with journal := w.journal ++ [.select cmdToken] }) := by
  constructor
  · simp [getHash, hlen, World.cacheGet, cache_miss w.cache token hcache, World.First,
      find_token_none w.table token hrow]
  · simp [Cmd.getHash, World.First, find_token_none w.table cmdToken hcmd]

theorem getHash_not_found_witness :
    tokenUnknown.length = 12 ∧ (∀ r ∈ worldA.table, r.Token ≠ tokenUnknown) ∧
      getHash worldA tokenUnknown =
        (.sendString 400 "not found url",
         { worldA with journal := [.cacheGet tokenUnknown, .select tokenUnknown] }) ∧
      Cmd.getHash worldA [117, 110, 107, 110, 111, 119, 110, 49, 50, 51] =
        (.sendString 400 "not found url",
         { worldA with journal := [.select [117, 110, 107, 110, 111, 119, 110, 49, 50, 51]] }) :=
  ⟨by decide, by decide,
    getHash_not_found worldA tokenUnknown [117, 110, 107, 110, 111, 119, 110, 49, 50, 51]
      (by decide) (by decide) (by decide) (by decide)⟩

/-! ## Shorten: rejections -/

theorem postShort_not_base64 (utils : Utils) (baseURL : GoString) (w : World)
    (reqUrl : GoString) (hne : reqUrl ≠ []) (h : DecodeString reqUrl = .error .corrupt) :
    postShort utils baseURL w reqUrl = (.json 200 ⟨-1, "url not base64", [], []⟩, w) := by
  simp [postShort, hne, h]

/-- C7. An empty target, or on `POST /short` a target that `DecodeString` refuses, is
answered with `Code = -1` and no short URL (with the empty-link message on
`POST /sub/index`), and the state is returned as it was received, journal included: no
row has been read, inserted or updated. This holds in both variants of `POST /short`. -/
theorem shorten_malformed_target (utils : Utils) (baseURL : GoString) (w : World)
    (reqUrl : GoString) (h : reqUrl = [] ∨ DecodeString reqUrl = .error .corrupt) :
    postShort utils baseURL w reqUrl =
        (.json 200 ⟨-1, if reqUrl = [] then "miss url" else "url not base64", [], []⟩, w) ∧
      Cmd.postShort utils baseURL w reqUrl =
        (.jsonp 200 ⟨-1, if reqUrl = [] then "miss url" else "url not base64", [], []⟩, w) ∧
      postSubIndex utils baseURL w [] = (.sendString 200 "链接为空", w) := by
  refine ⟨?_, ?_, by simp [postSubIndex]⟩
  · by_cases he : reqUrl = []
    · simp [postShort, he]
    · rcases h with h | h
      · exact absurd h he
      · simp [postShort, he, h]
  · by_cases he : reqUrl = []
    · simp [Cmd.postShort, he]
    · rcases h with h | h
      · exact absurd h he
      · simp [Cmd.postShort, he, h]

theorem shorten_malformed_target_witness :
    DecodeString [104, 116, 116, 112, 58] = .error .corrupt ∧
      postShort truncUtils [104] World.init [104, 116, 116, 112, 58] =
        (.json 200 ⟨-1, "url not base64", [], []⟩, World.init) ∧
      Cmd.postShort truncUtils [104] World.init [104, 116, 116, 112, 58] =
        (.jsonp 200 ⟨-1, "url not base64", [], []⟩, World.init) ∧
      postSubIndex truncUtils [104] World.init [] = (.sendString 200 "链接为空", World.init) :=
  ⟨by decide, shorten_malformed_target truncUtils [104] World.init [104, 116, 116, 112, 58]
    (Or.inr (by decide))⟩


/-! ## Create paths: state and reply -/

theorem decodeLoop_length (src : GoString) :
    ∀ (dbuf : List Nat) (u : GoString), decodeLoop src dbuf = .ok u →
      4 * u.length ≤ 3 * (src.length + dbuf.length) := by
  induction src with
  | nil =>
    intro dbuf u h
    cases dbuf with
    | nil =>
      simp only [decodeLoop, Except.ok.injEq] at h
      subst h
      simp
    | cons d ds => simp [decodeLoop] at h
  | cons c rest ih =>
    intro dbuf u h
    unfold decodeLoop at h
    simp only at h
    split at h
    · split at h
      · split at h
        · rename_i tl htl
          have := ih [] tl htl
          simp only [Except.ok.injEq] at h
          subst h
          simp only [List.length_cons, List.length_nil] at *
          omega
        · simp at h
      · have := ih _ u h
        simp only [List.length_cons, List.length_append, List.length_nil] at *
        omega
    · split at h
      · have := ih _ u h
        simp only [List.length_cons] at *
        omega
      · split at h
        · simp at h
        · split at h
          · split at h
            · simp at h
            · split at h
              · simp at h
              · split at h
                · simp at h
                · simp only [Except.ok.injEq] at h
                  subst h
                  simp only [List.length_cons, List.length_nil]
                  omega
          · split at h
            · simp at h
            · simp only [Except.ok.injEq] at h
              subst h
              simp only [List.length_cons, List.length_nil]
              omega
          · simp at h

/-- A non-empty string never equals its own decoding, which is strictly shorter. -/
theorem DecodeString_ne (r u : GoString) (h : DecodeString r = .ok u) (hr : r ≠ []) : r ≠ u := by
  have hl := decodeLoop_length r [] u h
  intro he
  subst he
  cases r with
  | nil => exact hr rfl
  | cons a t =>
    simp only [List.length_cons, List.length_nil] at hl
    omega

theorem EncodeToString_ne_nil (s : GoString) (hs : s ≠ []) : EncodeToString s ≠ [] := by
  match s, hs with
  | [_], _ => simp [EncodeToString]
  | [_, _], _ => simp [EncodeToString]
  | _ :: _ :: _ :: _, _ => simp [EncodeToString]


theorem FirstOrCreate_absent (w : World) (short : ShortMap)
    (h : ∀ r ∈ w.table, r.Token ≠ short.Token) :
    w.FirstOrCreate short.Token short =
      (.ok short,
       { w with
         table := w.table ++ [short],
         journal := w.journal ++ [.select short.Token, .insert short] }) := by
  simp [World.FirstOrCreate, World.First, World.Create, find_token_none w.table _ h,
    any_token_false w.table _ h]

theorem FirstOrCreate_present (w : World) (token : GoString) (short r : ShortMap)
    (h : w.table.find? (fun r => decide (r.Token = token)) = some r) :
    w.FirstOrCreate token short = (.ok r, { w with journal := w.journal ++ [.select token] }) := by
  simp [World.FirstOrCreate, World.First, h]

theorem map_update_absent (table : List ShortMap) (token jumpUrl : GoString)
    (h : ∀ r ∈ table, r.Token ≠ token) :
    table.map (fun r => if r.Token = token then { r with JumpUrl := jumpUrl } else r) = table := by
  conv_rhs => rw [← List.map_id table]
  apply List.map_congr_left
  intro r hr
  simp [h r hr]

/-- The state and reply of `POST /short` for an accepted target whose token has no row:
one select, one insert, and then one update that rewrites the row just inserted. -/
theorem postShort_absent (utils : Utils) (baseURL : GoString) (w : World) (reqUrl u : GoString)
    (hne : reqUrl ≠ []) (hdec : DecodeString reqUrl = .ok u)
    (hrow : ∀ r ∈ w.table, r.Token ≠ token12 utils reqUrl) :
    postShort utils baseURL w reqUrl =
      (.json 200 ⟨1, "", reqUrl, baseURL ++ slash ++ token12 utils reqUrl⟩,
       { w with
         table := w.table ++ [⟨token12 utils reqUrl, reqUrl⟩],
         journal := w.journal ++ [.select (token12 utils reqUrl),
           .insert ⟨token12 utils reqUrl, reqUrl⟩,
           .update (token12 utils reqUrl) reqUrl] }) := by
  have hfc := FirstOrCreate_absent w ⟨token12 utils reqUrl, reqUrl⟩ hrow
  simp only [token12] at hfc hrow
  simp [postShort, hne, hdec, hfc, DecodeString_ne reqUrl u hdec hne, World.Update,
    map_update_absent w.table _ reqUrl hrow]

/-- The state and reply of `POST /sub/index` for a target whose token has no row. -/
theorem postSubIndex_absent (utils : Utils) (baseURL : GoString) (w : World) (s : GoString)
    (hs : s ≠ []) (hrow : ∀ r ∈ w.table, r.Token ≠ token12 utils (EncodeToString s)) :
    postSubIndex utils baseURL w s =
      (.render 200 "short" Title (baseURL ++ slash ++ token12 utils (EncodeToString s)),
       { w with
         table := w.table ++ [⟨token12 utils (EncodeToString s), EncodeToString s⟩],
         journal := w.journal ++ [.select (token12 utils (EncodeToString s)),
           .insert ⟨token12 utils (EncodeToString s), EncodeToString s⟩] }) := by
  have hfc := FirstOrCreate_absent w ⟨token12 utils (EncodeToString s), EncodeToString s⟩ hrow
  simp only [token12] at hfc
  simp [postSubIndex, hs, hfc]

/-- Resolving a token of 12 characters that misses the cache and whose first row in the
table is `row`. -/
theorem getHash_store_hit (table : List ShortMap) (cache : LRU) (journal : List Access)
    (token : GoString) (row : ShortMap) (hlen : token.length = 12)
    (hcache : ∀ e ∈ cache.items, e.1 ≠ token)
    (hrow : table.find? (fun r => decide (r.Token = token)) = some row) :
    getHash ⟨table, cache, journal⟩ token =
      (match DecodeString row.JumpUrl with
        | .error e => .error (.base64 e)
        | .ok u => .redirect u 307,
       ⟨table, cache, journal ++ [.cacheGet token, .select token]⟩) := by
  simp only [getHash, hlen, World.cacheGet, cache_miss cache token hcache, World.First, hrow]
  cases DecodeString row.JumpUrl <;> simp

theorem find_append_new (table : List ShortMap) (token jumpUrl : GoString)
    (h : ∀ r ∈ table, r.Token ≠ token) :
    (table ++ [(⟨token, jumpUrl⟩ : ShortMap)]).find? (fun r => decide (r.Token = token)) =
      some ⟨token, jumpUrl⟩ := by
  simp [List.find?_append, find_token_none table token h]

/-! ## Round trip -/

/-- C1, as amended. For a non-empty target `s` whose token has 12 characters, no row
and no cache entry: `POST /sub/index` with `s`, and `POST /short` with the base64 form of
`s`, both answer with the short URL `baseURL/token`, and `GET /token` on the resulting
state answers with the redirect of status 307 whose argument is exactly `s`. The
`Location` header sent is what fasthttp makes of `s` for the request at hand, which is
`s` itself only where fasthttp leaves `s` as it is. -/
theorem round_trip (utils : Utils) (fh : Fasthttp) (req : RequestURI) (baseURL : GoString)
    (w : World) (s : GoString) (hs : s ≠ [])
    (hlen : (token12 utils (EncodeToString s)).length = 12)
    (hrow : ∀ r ∈ w.table, r.Token ≠ token12 utils (EncodeToString s))
    (hcache : ∀ e ∈ w.cache.items, e.1 ≠ token12 utils (EncodeToString s)) :
    ((postSubIndex utils baseURL w s).1 =
        .render 200 "short" Title (baseURL ++ slash ++ token12 utils (EncodeToString s)) ∧
      (getHash (postSubIndex utils baseURL w s).2 (token12 utils (EncodeToString s))).1 =
        .redirect s 307 ∧
      (postShort utils baseURL w (EncodeToString s)).1 =
        .json 200 ⟨1, "", EncodeToString s,
          baseURL ++ slash ++ token12 utils (EncodeToString s)⟩ ∧
      (getHash (postShort utils baseURL w (EncodeToString s)).2
          (token12 utils (EncodeToString s))).1 = .redirect s 307) ∧
      locationSent fh req
          (getHash (postSubIndex utils baseURL w s).2 (token12 utils (EncodeToString s))).1 =
        some (fh.Redirect req s) ∧
      locationSent fh req
          (getHash (postShort utils baseURL w (EncodeToString s)).2
            (token12 utils (EncodeToString s))).1 =
        some (fh.Redirect req s) ∧
      (fh.Redirect req s = s →
        locationSent fh req
            (getHash (postSubIndex utils baseURL w s).2 (token12 utils (EncodeToString s))).1 =
          some s ∧
        locationSent fh req
            (getHash (postShort utils baseURL w (EncodeToString s)).2
              (token12 utils (EncodeToString s))).1 =
          some s) := by
  have h1 := postSubIndex_absent utils baseURL w s hs hrow
  have h2 := postShort_absent utils baseURL w (EncodeToString s) s (EncodeToString_ne_nil s hs)
    (DecodeString_EncodeToString s) hrow
  have g1 : (getHash (postSubIndex utils baseURL w s).2 (token12 utils (EncodeToString s))).1 =
      .redirect s 307 := by
    rw [h1]
    dsimp only
    rw [getHash_store_hit _ w.cache _ _ ⟨token12 utils (EncodeToString s), EncodeToString s⟩
      hlen hcache (find_append_new w.table _ _ hrow)]
    simp [DecodeString_EncodeToString]
  have g2 : (getHash (postShort utils baseURL w (EncodeToString s)).2
      (token12 utils (EncodeToString s))).1 = .redirect s 307 := by
    rw [h2]
    dsimp only
    rw [getHash_store_hit _ w.cache _ _ ⟨token12 utils (EncodeToString s), EncodeToString s⟩
      hlen hcache (find_append_new w.table _ _ hrow)]
    simp [DecodeString_EncodeToString]
  refine ⟨⟨by rw [h1], g1, by rw [h2], g2⟩, ?_, ?_, ?_⟩
  · rw [g1]
    rfl
  · rw [g2]
    rfl
  · intro hfix
    rw [g1, g2]
    exact ⟨congrArg some hfix, congrArg some hfix⟩

theorem round_trip_witness :
    urlA ≠ [] ∧ (token12 truncUtils (EncodeToString urlA)).length = 12 ∧
      (getHash (postSubIndex truncUtils sampleBase World.init urlA).2 tokenAB).1 =
        .redirect urlA 307 ∧
      (getHash (postShort truncUtils sampleBase World.init (EncodeToString urlA)).2 tokenAB).1 =
        .redirect urlA 307 ∧
      plainFasthttp.Redirect ⟨sampleBase, slash ++ tokenAB⟩ urlA = urlA ∧
      locationSent plainFasthttp ⟨sampleBase, slash ++ tokenAB⟩
          (getHash (postSubIndex truncUtils sampleBase World.init urlA).2 tokenAB).1 =
        some urlA ∧
      locationSent plainFasthttp ⟨sampleBase, slash ++ tokenAB⟩
          (getHash (postShort truncUtils sampleBase World.init (EncodeToString urlA)).2
            tokenAB).1 =
        some urlA :=
  ⟨by decide, by decide,
    (round_trip truncUtils plainFasthttp ⟨sampleBase, slash ++ tokenAB⟩ sampleBase World.init
      urlA (by decide) (by decide) (by decide) (by decide)).1.2.1,
    (round_trip truncUtils plainFasthttp ⟨sampleBase, slash ++ tokenAB⟩ sampleBase World.init
      urlA (by decide) (by decide) (by decide) (by decide)).1.2.2.2,
    by decide,
    (round_trip truncUtils plainFasthttp ⟨sampleBase, slash ++ tokenAB⟩ sampleBase World.init
      urlA (by decide) (by decide) (by decide) (by decide)).2.2.2 (by decide)⟩

/-- C1, counterexample. The target `example.com/a` is non-empty, its token has 12
characters, and the fresh state has neither a row nor a cache entry for it. After
`POST /sub/index`, and after `POST /short` with its base64 form, `GET /token` calls the
redirect with `example.com/a`; the reference is relative, so the `Location` sent for the
request `http://s.lk/token` is `http://s.lk/example.com/a` and not the target. -/
theorem round_trip_relative_target :
    urlRel ≠ [] ∧ token12 truncUtils (EncodeToString urlRel) = tokenRel ∧
      tokenRel.length = 12 ∧
      (∀ r ∈ World.init.table, r.Token ≠ tokenRel) ∧
      (∀ e ∈ World.init.cache.items, e.1 ≠ tokenRel) ∧
      (postSubIndex truncUtils sampleBase World.init urlRel).1 =
        .render 200 "short" Title (sampleBase ++ slash ++ tokenRel) ∧
      (getHash (postSubIndex truncUtils sampleBase World.init urlRel).2 tokenRel).1 =
        .redirect urlRel 307 ∧
      locationSent plainFasthttp ⟨sampleBase, slash ++ tokenRel⟩
          (getHash (postSubIndex truncUtils sampleBase World.init urlRel).2 tokenRel).1 =
        some urlRelResolved ∧
      locationSent plainFasthttp ⟨sampleBase, slash ++ tokenRel⟩
          (getHash (postShort truncUtils sampleBase World.init (EncodeToString urlRel)).2
            tokenRel).1 =
        some urlRelResolved ∧
      urlRelResolved ≠ urlRel := by
  decide

theorem find_token_eq (table : List ShortMap) (token : GoString) (r : ShortMap)
    (h : table.find? (fun r => decide (r.Token = token)) = some r) : r.Token = token := by
  have := List.find?_some h
  simpa using this

/-- The state and reply of `POST /sub/index` when the table returns `r` for the token. -/
theorem postSubIndex_present (utils : Utils) (baseURL : GoString) (w : World) (s : GoString)
    (r : ShortMap) (hs : s ≠ [])
    (hrow : w.table.find? (fun r => decide (r.Token = token12 utils (EncodeToString s))) = some r) :
    postSubIndex utils baseURL w s =
      (.render 200 "short" Title (baseURL ++ slash ++ token12 utils (EncodeToString s)),
       { w with journal := w.journal ++ [.select (token12 utils (EncodeToString s))] }) := by
  have ht := find_token_eq _ _ _ hrow
  have hfc := FirstOrCreate_present w _ ⟨token12 utils (EncodeToString s), EncodeToString s⟩ r hrow
  simp only [token12] at hfc ht
  simp [postSubIndex, hs, hfc, ht]

/-- The state and reply of `POST /short` when the table returns `r` for the token: the
update is issued exactly when the target stored in `r` differs from the decoded request. -/
theorem postShort_present (utils : Utils) (baseURL : GoString) (w : World) (reqUrl u : GoString)
    (r : ShortMap) (hne : reqUrl ≠ []) (hdec : DecodeString reqUrl = .ok u)
    (hrow : w.table.find? (fun r => decide (r.Token = token12 utils reqUrl)) = some r) :
    postShort utils baseURL w reqUrl =
      (.json 200 ⟨1, "", reqUrl, baseURL ++ slash ++ token12 utils reqUrl⟩,
       if r.JumpUrl ≠ u then
         { w with
           table := w.table.map (fun r =>
             if r.Token = token12 utils reqUrl then { r with JumpUrl := reqUrl } else r),
           journal := w.journal ++ [.select (token12 utils reqUrl),
             .update (token12 utils reqUrl) reqUrl] }
       else { w with journal := w.journal ++ [.select (token12 utils reqUrl)] }) := by
  have ht := find_token_eq _ _ _ hrow
  have hfc := FirstOrCreate_present w _ ⟨token12 utils reqUrl, reqUrl⟩ r hrow
  simp only [token12] at hfc ht
  by_cases hj : r.JumpUrl = u
  · simp [postShort, hne, hdec, hfc, ht, hj]
  · simp [postShort, hne, hdec, hfc, ht, hj, World.Update]

theorem find_token_cases (table : List ShortMap) (token : GoString) :
    (∀ r ∈ table, r.Token ≠ token) ∨
      ∃ r, table.find? (fun r => decide (r.Token = token)) = some r := by
  cases h : table.find? (fun r => decide (r.Token = token)) with
  | none =>
    left
    rw [List.find?_eq_none] at h
    intro r hr
    simpa using h r hr
  | some r => exact Or.inr ⟨r, rfl⟩

theorem postSubIndex_reply (utils : Utils) (baseURL : GoString) (w : World) (s : GoString)
    (hs : s ≠ []) :
    (postSubIndex utils baseURL w s).1 =
      .render 200 "short" Title (baseURL ++ slash ++ token12 utils (EncodeToString s)) := by
  rcases find_token_cases w.table (token12 utils (EncodeToString s)) with h | ⟨r, h⟩
  · rw [postSubIndex_absent utils baseURL w s hs h]
  · rw [postSubIndex_present utils baseURL w s r hs h]

theorem postShort_reply (utils : Utils) (baseURL : GoString) (w : World) (reqUrl u : GoString)
    (hne : reqUrl ≠ []) (hdec : DecodeString reqUrl = .ok u) :
    (postShort utils baseURL w reqUrl).1 =
      .json 200 ⟨1, "", reqUrl, baseURL ++ slash ++ token12 utils reqUrl⟩ := by
  rcases find_token_cases w.table (token12 utils reqUrl) with h | ⟨r, h⟩
  · rw [postShort_absent utils baseURL w reqUrl u hne hdec h]
  · rw [postShort_present utils baseURL w reqUrl u r hne hdec h]

/-! ## The two create paths -/

/-- C10. For a non-empty target `s`, `POST /sub/index` with `s` and `POST /short` with the
base64 form of `s` answer with the same short URL `baseURL/token`, and when the table had
no row under that token both leave the table extended by the one row
`(token, base64 s)`. -/
theorem create_paths_agree (utils : Utils) (baseURL : GoString) (w : World) (s : GoString)
    (hs : s ≠ []) :
    (postSubIndex utils baseURL w s).1 =
        .render 200 "short" Title (baseURL ++ slash ++ token12 utils (EncodeToString s)) ∧
      (postShort utils baseURL w (EncodeToString s)).1 =
        .json 200 ⟨1, "", EncodeToString s,
          baseURL ++ slash ++ token12 utils (EncodeToString s)⟩ ∧
      ((∀ r ∈ w.table, r.Token ≠ token12 utils (EncodeToString s)) →
        (postSubIndex utils baseURL w s).2.table =
            w.table ++ [⟨token12 utils (EncodeToString s), EncodeToString s⟩] ∧
          (postShort utils baseURL w (EncodeToString s)).2.table =
            w.table ++ [⟨token12 utils (EncodeToString s), EncodeToString s⟩]) := by
  refine ⟨postSubIndex_reply utils baseURL w s hs,
    postShort_reply utils baseURL w _ s (EncodeToString_ne_nil s hs)
      (DecodeString_EncodeToString s), ?_⟩
  intro hrow
  rw [postSubIndex_absent utils baseURL w s hs hrow,
    postShort_absent utils baseURL w _ s (EncodeToString_ne_nil s hs)
      (DecodeString_EncodeToString s) hrow]
  exact ⟨rfl, rfl⟩

theorem create_paths_agree_witness :
    urlA ≠ [] ∧ (∀ r ∈ World.init.table, r.Token ≠ token12 truncUtils (EncodeToString urlA)) ∧
      (postSubIndex truncUtils sampleBase World.init urlA).2.table =
        [⟨tokenAB, EncodeToString urlA⟩] ∧
      (postShort truncUtils sampleBase World.init (EncodeToString urlA)).2.table =
        [⟨tokenAB, EncodeToString urlA⟩] :=
  ⟨by decide, by decide,
    (create_paths_agree truncUtils sampleBase World.init urlA (by decide)).2.2 (by decide)⟩


theorem find_map_update (table : List ShortMap) (token jumpUrl : GoString) (r : ShortMap)
    (h : table.find? (fun r => decide (r.Token = token)) = some r) :
    (table.map (fun r => if r.Token = token then { r with JumpUrl := jumpUrl } else r)).find?
        (fun r => decide (r.Token = token)) = some ⟨token, jumpUrl⟩ := by
  induction table with
  | nil => simp at h
  | cons a t ih =>
    by_cases ha : a.Token = token
    · simp [List.find?, ha]
    · simp only [List.find?, ha, decide_False] at h
      simp [List.find?, ha, ih h]

theorem map_update_idem (table : List ShortMap) (token jumpUrl : GoString) :
    (table.map (fun r => if r.Token = token then { r with JumpUrl := jumpUrl } else r)).map
        (fun r => if r.Token = token then { r with JumpUrl := jumpUrl } else r) =
      table.map (fun r => if r.Token = token then { r with JumpUrl := jumpUrl } else r) := by
  rw [List.map_map]
  apply List.map_congr_left
  intro r _
  by_cases hr : r.Token = token <;> simp [hr]

theorem map_update_append_new (table : List ShortMap) (token jumpUrl : GoString)
    (h : ∀ r ∈ table, r.Token ≠ token) :
    (table ++ [(⟨token, jumpUrl⟩ : ShortMap)]).map
        (fun r => if r.Token = token then { r with JumpUrl := jumpUrl } else r) =
      table ++ [⟨token, jumpUrl⟩] := by
  rw [List.map_append, map_update_absent table token jumpUrl h]
  simp

/-- Running `POST /short` a second time on the state left by the first run. -/
theorem postShort_twice (utils : Utils) (baseURL : GoString) (w : World) (reqUrl u : GoString)
    (hne : reqUrl ≠ []) (hdec : DecodeString reqUrl = .ok u) :
    (postShort utils baseURL (postShort utils baseURL w reqUrl).2 reqUrl).2.table =
        (postShort utils baseURL w reqUrl).2.table ∧
      ∃ extra, (postShort utils baseURL (postShort utils baseURL w reqUrl).2 reqUrl).2.journal =
          (postShort utils baseURL w reqUrl).2.journal ++ extra ∧
        ∀ row, Access.insert row ∉ extra := by
  have hru := DecodeString_ne reqUrl u hdec hne
  rcases find_token_cases w.table (token12 utils reqUrl) with h | ⟨r, h⟩
  · rw [postShort_absent utils baseURL w reqUrl u hne hdec h]
    dsimp only
    rw [postShort_present utils baseURL ⟨_, w.cache, _⟩ reqUrl u ⟨token12 utils reqUrl, reqUrl⟩
      hne hdec (find_append_new w.table _ _ h)]
    simp only [ne_eq, hru, not_false_eq_true, if_true]
    refine ⟨map_update_append_new w.table _ _ h, _, rfl, ?_⟩
    simp
  · rw [postShort_present utils baseURL w reqUrl u r hne hdec h]
    by_cases hj : r.JumpUrl = u
    · rw [if_neg (not_not.mpr hj)]
      rw [postShort_present utils baseURL
        ⟨w.table, w.cache, w.journal ++ [Access.select (token12 utils reqUrl)]⟩ reqUrl u r hne hdec h]
      rw [if_neg (not_not.mpr hj)]
      exact ⟨rfl, [Access.select (token12 utils reqUrl)], rfl, by simp⟩
    · simp only [ne_eq, hj, not_false_eq_true, if_true]
      rw [postShort_present utils baseURL ⟨_, w.cache, _⟩ reqUrl u ⟨token12 utils reqUrl, reqUrl⟩
        hne hdec (find_map_update w.table _ _ r h)]
      simp only [ne_eq, hru, not_false_eq_true, if_true]
      refine ⟨map_update_idem w.table _ _, _, rfl, ?_⟩
      simp

/-- Running `POST /sub/index` a second time on the state left by the first run. -/
theorem postSubIndex_twice (utils : Utils) (baseURL : GoString) (w : World) (s : GoString)
    (hs : s ≠ []) :
    (postSubIndex utils baseURL (postSubIndex utils baseURL w s).2 s).2.table =
        (postSubIndex utils baseURL w s).2.table ∧
      (postSubIndex utils baseURL (postSubIndex utils baseURL w s).2 s).2.journal =
        (postSubIndex utils baseURL w s).2.journal ++
          [.select (token12 utils (EncodeToString s))] := by
  rcases find_token_cases w.table (token12 utils (EncodeToString s)) with h | ⟨r, h⟩
  · rw [postSubIndex_absent utils baseURL w s hs h]
    dsimp only
    rw [postSubIndex_present utils baseURL ⟨_, w.cache, _⟩ s
      ⟨token12 utils (EncodeToString s), EncodeToString s⟩ hs (find_append_new w.table _ _ h)]
    exact ⟨rfl, rfl⟩
  · rw [postSubIndex_present utils baseURL w s r hs h]
    dsimp only
    rw [postSubIndex_present utils baseURL
      ⟨w.table, w.cache, w.journal ++ [Access.select (token12 utils (EncodeToString s))]⟩ s r hs h]
    exact ⟨rfl, rfl⟩

/-! ## Idempotent create -/

/-- C2. For a non-empty target and any state, a second run of the same create request
answers exactly as the first (so with the same short URL `baseURL/token`), leaves the
table as the first run left it, and adds no insert to the journal. This holds for
`POST /sub/index` and for `POST /short`. -/
theorem idempotent_create (utils : Utils) (baseURL : GoString) (w : World) (s : GoString)
    (hs : s ≠ []) :
    ((postSubIndex utils baseURL w s).1 =
          .render 200 "short" Title (baseURL ++ slash ++ token12 utils (EncodeToString s)) ∧
        (postSubIndex utils baseURL (postSubIndex utils baseURL w s).2 s).1 =
          (postSubIndex utils baseURL w s).1 ∧
        (postSubIndex utils baseURL (postSubIndex utils baseURL w s).2 s).2.table =
          (postSubIndex utils baseURL w s).2.table ∧
        (postSubIndex utils baseURL (postSubIndex utils baseURL w s).2 s).2.journal =
          (postSubIndex utils baseURL w s).2.journal ++
            [.select (token12 utils (EncodeToString s))]) ∧
      ((∀ u, DecodeString s = .ok u → (postShort utils baseURL w s).1 =
          .json 200 ⟨1, "", s, baseURL ++ slash ++ token12 utils s⟩) ∧
        (postShort utils baseURL (postShort utils baseURL w s).2 s).1 =
          (postShort utils baseURL w s).1 ∧
        (postShort utils baseURL (postShort utils baseURL w s).2 s).2.table =
          (postShort utils baseURL w s).2.table ∧
        ∃ extra, (postShort utils baseURL (postShort utils baseURL w s).2 s).2.journal =
            (postShort utils baseURL w s).2.journal ++ extra ∧
          ∀ row, Access.insert row ∉ extra) := by
  refine ⟨⟨postSubIndex_reply utils baseURL w s hs, ?_, postSubIndex_twice utils baseURL w s hs⟩,
    fun u hu => postShort_reply utils baseURL w s u hs hu, ?_⟩
  · rw [postSubIndex_reply utils baseURL _ s hs, postSubIndex_reply utils baseURL w s hs]
  · cases hdec : DecodeString s with
    | error e =>
      cases e
      rw [postShort_not_base64 utils baseURL w s hs hdec]
      dsimp only
      rw [postShort_not_base64 utils baseURL w s hs hdec]
      exact ⟨rfl, rfl, [], by simp, by simp⟩
    | ok u =>
      refine ⟨?_, postShort_twice utils baseURL w s u hs hdec⟩
      rw [postShort_reply utils baseURL _ s u hs hdec, postShort_reply utils baseURL w s u hs hdec]

theorem idempotent_create_witness :
    urlA ≠ [] ∧
      (postSubIndex truncUtils sampleBase
          (postSubIndex truncUtils sampleBase World.init urlA).2 urlA).2.table =
        (postSubIndex truncUtils sampleBase World.init urlA).2.table ∧
      (postShort truncUtils sampleBase
          (postShort truncUtils sampleBase World.init (EncodeToString urlA)).2
          (EncodeToString urlA)).2.table =
        (postShort truncUtils sampleBase World.init (EncodeToString urlA)).2.table :=
  ⟨by decide,
    (idempotent_create truncUtils sampleBase World.init urlA (by decide)).1.2.2.1,
    (idempotent_create truncUtils sampleBase World.init (EncodeToString urlA)
      (by decide)).2.2.2.1⟩


/-! ## Resolve through the table -/

/-- C8. On a cold cache, resolving a token for which the table returns `row` and then
resolving it again gives the identical reply both times; for a token of 12 characters
that reply is the redirect (status 307) to the decoded target of `row`, or the decoding
error when the stored target is not base64. -/
theorem cache_transparency (w : World) (token : GoString) (row : ShortMap)
    (hcold : w.cache.items = [])
    (hrow : w.table.find? (fun r => decide (r.Token = token)) = some row) :
    (getHash (getHash w token).2 token).1 = (getHash w token).1 ∧
      (token.length = 12 →
        (getHash w token).1 =
          match DecodeString row.JumpUrl with
          | .error e => .error (.base64 e)
          | .ok u => .redirect u 307) := by
  have hcache : ∀ e ∈ w.cache.items, e.1 ≠ token := by simp [hcold]
  by_cases hlen : token.length = 12
  · have h1 := getHash_store_hit w.table w.cache w.journal token row hlen hcache hrow
    have h1' : getHash w token = _ := h1
    rw [h1']
    dsimp only
    rw [getHash_store_hit w.table w.cache _ token row hlen hcache hrow]
    exact ⟨rfl, fun _ => rfl⟩
  · rw [getHash_bad_length w token hlen]
    dsimp only
    rw [getHash_bad_length w token hlen]
    exact ⟨rfl, fun h => absurd h hlen⟩

theorem cache_transparency_witness :
    worldA.cache.items = [] ∧
      (getHash (getHash worldA tokenAB).2 tokenAB).1 = (getHash worldA tokenAB).1 ∧
      (getHash worldA tokenAB).1 = .redirect urlA 307 :=
  ⟨rfl, (cache_transparency worldA tokenAB ⟨tokenAB, EncodeToString urlA⟩ rfl (by decide)).1,
    (cache_transparency worldA tokenAB ⟨tokenAB, EncodeToString urlA⟩ rfl (by decide)).2
      (by decide)⟩


/-! ## Token collisions -/

/-- C5, as amended. There is no collision signal: when the table holds a row `(t, x)` and
the non-empty target `s` has the token `t` while `x` is not the stored form of `s`, both
create paths report success with the short URL `baseURL/t`, and `POST /sub/index` leaves
the table, hence the row `(t, x)`, unchanged after its one select. -/
theorem collision_reports_success (utils : Utils) (baseURL : GoString) (w : World)
    (s x : GoString) (hs : s ≠ [])
    (hrow : (⟨token12 utils (EncodeToString s), x⟩ : ShortMap) ∈ w.table)
    (hx : x ≠ EncodeToString s) :
    (⟨token12 utils (EncodeToString s), EncodeToString s⟩ : ShortMap) ≠
        ⟨token12 utils (EncodeToString s), x⟩ ∧
      postSubIndex utils baseURL w s =
        (.render 200 "short" Title (baseURL ++ slash ++ token12 utils (EncodeToString s)),
         { w with journal := w.journal ++ [.select (token12 utils (EncodeToString s))] }) ∧
      (postShort utils baseURL w (EncodeToString s)).1 =
        .json 200 ⟨1, "", EncodeToString s,
          baseURL ++ slash ++ token12 utils (EncodeToString s)⟩ := by
  refine ⟨?_, ?_, postShort_reply utils baseURL w _ s (EncodeToString_ne_nil s hs)
    (DecodeString_EncodeToString s)⟩
  · intro h
    injection h with _ h2
    exact hx h2.symm
  · rcases find_token_cases w.table (token12 utils (EncodeToString s)) with h | ⟨r, h⟩
    · exact absurd rfl (h _ hrow)
    · exact postSubIndex_present utils baseURL w s r hs h

theorem collision_reports_success_witness :
    urlB ≠ [] ∧ (⟨token12 truncUtils (EncodeToString urlB), EncodeToString urlA⟩ : ShortMap) ∈
        worldA.table ∧
      EncodeToString urlA ≠ EncodeToString urlB ∧
      postSubIndex truncUtils sampleBase worldA urlB =
        (.render 200 "short" Title
            (sampleBase ++ slash ++ token12 truncUtils (EncodeToString urlB)),
         { worldA with
           journal := worldA.journal ++ [.select (token12 truncUtils (EncodeToString urlB))] }) :=
  ⟨by decide, by decide, by decide,
    (collision_reports_success truncUtils sampleBase worldA urlB (EncodeToString urlA)
      (by decide) (by decide) (by decide)).2.1⟩

/-- C5, counterexample. The table holds the row for `urlA`; `urlB` is a different target
with the same token. `POST /sub/index` with `urlB` answers with the success page for that
token, and `POST /short` with the base64 form of `urlB` answers `Code = 1` and rewrites
the row, so that the token now resolves to `urlB`. -/
theorem collision_silently_resolved :
    token12 truncUtils (EncodeToString urlB) = tokenAB ∧
      EncodeToString urlA ≠ EncodeToString urlB ∧
      postSubIndex truncUtils sampleBase worldA urlB =
        (.render 200 "short" Title (sampleBase ++ slash ++ tokenAB),
         ⟨[⟨tokenAB, EncodeToString urlA⟩], ⟨1024 * 8, []⟩, [.select tokenAB]⟩) ∧
      postShort truncUtils sampleBase worldA (EncodeToString urlB) =
        (.json 200 ⟨1, "", EncodeToString urlB, sampleBase ++ slash ++ tokenAB⟩,
         ⟨[⟨tokenAB, EncodeToString urlB⟩], ⟨1024 * 8, []⟩,
          [.select tokenAB, .update tokenAB (EncodeToString urlB)]⟩) ∧
      (getHash (postShort truncUtils sampleBase worldA (EncodeToString urlB)).2 tokenAB).1 =
        .redirect urlB 307 := by
  decide

/-! ## The cache is never written -/

/-- A resolve that misses the cache leaves the cache and the table as they were, whatever
the table returns: no path of the handler writes to the cache. -/
theorem getHash_miss_keeps_state (w : World) (token : GoString)
    (hcache : ∀ e ∈ w.cache.items, e.1 ≠ token) :
    (getHash w token).2.cache = w.cache ∧ (getHash w token).2.table = w.table := by
  by_cases hlen : token.length = 12
  · rcases find_token_cases w.table token with h | ⟨r, h⟩
    · simp [getHash, hlen, World.cacheGet, cache_miss w.cache token hcache, World.First,
        find_token_none w.table token h]
    · have h1 : getHash w token = _ :=
        getHash_store_hit w.table w.cache w.journal token r hlen hcache h
      rw [h1]
      exact ⟨rfl, rfl⟩
  · rw [getHash_bad_length w token hlen]
    exact ⟨rfl, rfl⟩

/-- C4, evaluated. The table holds the row for `urlA` and the cache is cold. Resolving
the token redirects to `urlA`, and the cache is as empty afterwards as before: the second
resolve misses the cache again and goes to the table again. -/
theorem resolve_leaves_cache_cold :
    getHash worldA tokenAB =
        (.redirect urlA 307,
         ⟨[⟨tokenAB, EncodeToString urlA⟩], ⟨1024 * 8, []⟩,
          [.cacheGet tokenAB, .select tokenAB]⟩) ∧
      ((getHash worldA tokenAB).2.cache.Get tokenAB).1 = .error .KeyNotFoundError ∧
      (getHash (getHash worldA tokenAB).2 tokenAB).2.journal =
        [.cacheGet tokenAB, .select tokenAB, .cacheGet tokenAB, .select tokenAB] := by
  decide

/-! ## The update after a create -/

/-- C9, evaluated. On the fresh state, `POST /short` with the base64 form of `urlA`
inserts the row and then issues the update on the row it has just inserted. -/
theorem update_issued_after_create :
    postShort truncUtils sampleBase World.init (EncodeToString urlA) =
      (.json 200 ⟨1, "", EncodeToString urlA, sampleBase ++ slash ++ tokenAB⟩,
       ⟨[⟨tokenAB, EncodeToString urlA⟩], ⟨1024 * 8, []⟩,
        [.select tokenAB, .insert ⟨tokenAB, EncodeToString urlA⟩,
          .update tokenAB (EncodeToString urlA)]⟩) := by
  decide

end ShortLink
